import Mathlib

/-!
Shallow embedding of `src/scanner/kaspersky.go` (package `scanner` of
gatariee/GoCheck) and proofs about its bisection engine, verdict parser,
scan invoker and the two reporting goroutines.

Byte buffers are `List UInt8`; Go strings are Lean `String`, manipulated
through their character lists so that every operation is executable and
decidable. Machine integers of the Go code stay within `[0, len(file)]`,
so they are modelled as `Nat` (the one subtraction that can go negative,
`lastGood - 32`, is modelled on `Int` exactly as the code clamps it).
-/

namespace GoCheck

/-! ### String primitives (Go `strings` package operations used by the code) -/

/-- `seqStarts pat s`: the character list `s` starts with `pat`
(Go `strings.HasPrefix` on the tail positions, used to build containment). -/
def seqStarts : List Char → List Char → Bool
  | [], _ => true
  | _ :: _, [] => false
  | p :: ps, c :: cs => p == c && seqStarts ps cs

/-- `seqContains pat s`: `pat` occurs as a contiguous subsequence of `s`.
This is Go `strings.Contains(s, pat)`. -/
def seqContains (pat : List Char) : List Char → Bool
  | [] => seqStarts pat []
  | c :: cs => seqStarts pat (c :: cs) || seqContains pat cs

/-- Go `strings.Split(s, "\n")`: split on newline, keeping empty parts;
always returns at least one part. -/
def splitLines : List Char → List (List Char)
  | [] => [[]]
  | c :: cs =>
    if c = '\n' then [] :: splitLines cs
    else
      match splitLines cs with
      | [] => [[c]]
      | l :: ls => (c :: l) :: ls

/-- Accumulator for `fieldsOf`: `cur` is the (reversed) run of non-whitespace
characters currently being read. -/
def fieldsAux (cur : List Char) : List Char → List (List Char)
  | [] => if cur.isEmpty then [] else [cur.reverse]
  | c :: cs =>
    if c.isWhitespace then
      if cur.isEmpty then fieldsAux [] cs else cur.reverse :: fieldsAux [] cs
    else fieldsAux (c :: cur) cs

/-- Go `strings.Fields(s)`: the maximal whitespace-free runs of `s`. -/
def fieldsOf (s : List Char) : List (List Char) := fieldsAux [] s

/-! ### Verdict parser: `IsMalicious` and `GetSignature` -/

/-- The suspicion marker substring looked for by `IsMalicious`. -/
def suspicionMarker : List Char := "suspicion".data

/-- The heuristic-name marker looked for by `GetSignature`. -/
def heurMarker : List Char := "HEUR:".data

/-- `IsMalicious` (kaspersky.go lines 34-43): true iff some line of the raw
scanner output contains the substring `"suspicion"`. -/
def IsMalicious (output : String) : Bool :=
  (splitLines output.data).any (fun line => seqContains suspicionMarker line)

/-- The line scan of `GetSignature` (kaspersky.go lines 47-56): for each line
containing `"HEUR:"`, return the first whitespace-delimited field of that line
containing `"HEUR:"`; otherwise keep scanning. -/
def findSig : List (List Char) → Option (List Char)
  | [] => none
  | line :: rest =>
    if seqContains heurMarker line then
      match (fieldsOf line).find? (fun part => seqContains heurMarker part) with
      | some part => some part
      | none => findSig rest
    else findSig rest

/-- `GetSignature` (kaspersky.go lines 45-59). -/
def GetSignature (output : String) : String :=
  match findSig (splitLines output.data) with
  | some part => String.mk part
  | none => "No signature found"

/-! ### Scan invoker -/

/-- Outcome of the external scanner subprocess: whatever it printed on
standard output and standard error, and the error `exec.Cmd.Run` would
return (`some msg` on failure to start or a non-zero exit status). -/
structure ProcResult where
  stdout : String
  stderr : String
  runError : Option String

/-- `Scan` (kaspersky.go lines 22-32): runs the scanner subprocess, ignores
the result of `Run()` entirely, and returns the captured standard output
together with a `nil` error. -/
def Scan (_file _scanPath : String) (proc : ProcResult) : String × Option String :=
  (proc.stdout, none)

/-! ### Bisection engine state -/

/-- The search bounds of the bisection loop (kaspersky.go lines 134-136).
`mid` is not stored: the code keeps `mid = (lastGood + upperBound) / 2` at
every scan point (initially `upperBound / 2` with `lastGood = 0`, and it is
recomputed from the updated bounds at the end of every iteration). -/
structure SearchWindow where
  lastGood : Nat
  upperBound : Nat
  deriving DecidableEq, Repr

/-- The pivot `mid` as maintained by the code. -/
def midOf (w : SearchWindow) : Nat := (w.lastGood + w.upperBound) / 2

/-- Width of the search window. -/
def width (w : SearchWindow) : Nat := w.upperBound - w.lastGood

/-- One verdict application (kaspersky.go lines 154-165): malicious sets
`upperBound = mid`, clean sets `lastGood = mid`. -/
def stepWindow (malicious : Bool) (w : SearchWindow) : SearchWindow :=
  if malicious then ⟨w.lastGood, midOf w⟩ else ⟨midOf w, w.upperBound⟩

/-- Full loop state: window, the `threatFound` flag, and the number of
bisection iterations (= `Scan` calls) performed so far. -/
structure LoopState where
  win : SearchWindow
  threatFound : Bool
  iters : Nat
  deriving DecidableEq, Repr

/-- State just before the loop (kaspersky.go lines 134-139). -/
def initState (n : Nat) : LoopState := ⟨⟨0, n⟩, false, 0⟩

/-- One loop iteration under verdict oracle `o` (iteration index, scanned
prefix length `mid` ↦ verdict). -/
def stepState (o : Nat → Nat → Bool) (s : LoopState) : LoopState :=
  let v := o s.iters (midOf s.win)
  ⟨stepWindow v s.win, s.threatFound || v, s.iters + 1⟩

/-- The `for upperBound-lastGood > 1` loop (kaspersky.go lines 141-168),
run with explicit fuel; `fuel = len(file)` is proved sufficient below, and
the result is proved independent of any larger fuel. -/
def runLoopFuel (o : Nat → Nat → Bool) : Nat → LoopState → LoopState
  | 0, s => s
  | fuel + 1, s =>
    if 1 < width s.win then runLoopFuel o fuel (stepState o s) else s

/-- The fixed lower bound of every scanned slice (`tf_lower`, line 139). -/
def tf_lower : Nat := 0

/-- The candidate slice written to the scratch file each iteration
(`original_file[tf_lower:mid]`, line 142). -/
def scannedSlice (buf : List UInt8) (mid : Nat) : List UInt8 :=
  (buf.drop tf_lower).take (mid - tf_lower)

/-! ### Result assembly (kaspersky.go lines 173-204) -/

/-- `start := lastGood - 32; if start < 0 { start = 0 }` (lines 179-182),
on `Int` exactly as the Go `int` arithmetic does it. -/
def dumpLo (lastGood : Nat) : Int :=
  let s : Int := (lastGood : Int) - 32
  if s < 0 then 0 else s

/-- `end := mid + 32; if end > size { end = size }` (lines 184-187). -/
def dumpHi (mid size : Nat) : Nat :=
  let e := mid + 32
  if e > size then size else e

/-- Observable outcome of `KasperskyRun` after a successful file read. -/
inductive RunResult where
  | cleanInitial
  | notMalicious
  | found (localizedOffset : Nat) (windowDump : List UInt8) (signatures : List String)
  deriving DecidableEq, Repr

/-- Environment of one run: the file bytes, the raw scanner output of the
initial full-file scan, and the raw output of the `i`-th bisection scan. -/
structure ScanEnv where
  buffer : List UInt8
  initialOut : String
  outs : Nat → String

/-- Verdict oracle induced by the per-iteration raw outputs. -/
def oracleOf (outs : Nat → String) : Nat → Nat → Bool :=
  fun i _mid => IsMalicious (outs i)

/-- `KasperskyRun` (kaspersky.go lines 66-211), observably: if the initial
scan is clean, stop; otherwise send the initial signature to the threat
collector (the only send that ever happens), run the bisection loop, and on
`threatFound` report offset `lastGood`, the hex-dump window
`original_file[start:end]` with the clamped bounds computed from `lastGood`
and the final `mid`, and the deduplicated threat list. -/
def KasperskyRunModel (env : ScanEnv) : RunResult :=
  let size := env.buffer.length
  if IsMalicious env.initialOut then
    let threat_list := [GetSignature env.initialOut]
    let f := runLoopFuel (oracleOf env.outs) size (initState size)
    if f.threatFound then
      let lg := f.win.lastGood
      let lo := (dumpLo lg).toNat
      let hi := dumpHi (midOf f.win) size
      RunResult.found lg ((env.buffer.drop lo).take (hi - lo)) threat_list.eraseDups
    else RunResult.notMalicious
  else RunResult.cleanInitial

/-! ### The two goroutines (kaspersky.go lines 80-107) -/

/-- A progress event (fields as used by the reporter goroutine). -/
structure Progress where
  Low : Nat
  High : Nat
  Malicious : Bool
  deriving DecidableEq, Repr

/-- One receive on a Go channel: either a sent value (`ok = true`) or the
zero value delivered after the channel is closed (`ok = false`). -/
inductive Recv (α : Type) where
  | value (a : α)
  | closed
  deriving DecidableEq, Repr

/-- One turn of the progress-reporter goroutine (lines 80-98): both select
branches receive from `progressUpdates` and return when `ok` is false.
`true` means the loop continues. -/
def reporterIter : Recv Progress → Bool
  | .value _ => true
  | .closed => false

/-- Whether the reporter goroutine is still looping after `n` turns given
the stream of channel reads. -/
def reporterRuns (reads : Nat → Recv Progress) : Nat → Bool
  | 0 => true
  | n + 1 => reporterRuns reads n && reporterIter (reads n)

/-- One turn of the threat-collector goroutine (lines 102-107):
`threat_name := <-threat_names` has no `ok` check, so a closed channel
delivers the zero value `""` and the body appends it; the loop has no
return path at all. -/
def collectorIter (st : List String) : Recv String → List String
  | .value a => st ++ [a]
  | .closed => st ++ [""]

/-- The collector's accumulated `threat_list` after `n` turns. -/
def collectorRuns (reads : Nat → Recv String) : Nat → List String
  | 0 => []
  | n + 1 => collectorIter (collectorRuns reads n) (reads n)

/-! ### Window arithmetic lemmas -/

theorem lastGood_lt_midOf {w : SearchWindow} (h : 1 < width w) :
    w.lastGood < midOf w := by
  unfold width at h
  unfold midOf
  omega

theorem midOf_lt_upperBound {w : SearchWindow} (h : 1 < width w) :
    midOf w < w.upperBound := by
  unfold width at h
  unfold midOf
  omega

theorem lastGood_le_midOf {w : SearchWindow} (h : w.lastGood ≤ w.upperBound) :
    w.lastGood ≤ midOf w := by
  unfold midOf
  omega

theorem midOf_le_upperBound {w : SearchWindow} (h : w.lastGood ≤ w.upperBound) :
    midOf w ≤ w.upperBound := by
  unfold midOf
  omega

theorem width_stepWindow_lt {w : SearchWindow} (v : Bool) (h : 1 < width w) :
    width (stepWindow v w) < width w := by
  unfold width at h ⊢
  cases v <;> simp [stepWindow, midOf] <;> omega

theorem width_stepWindow_pos {w : SearchWindow} (v : Bool) (h : 1 < width w) :
    1 ≤ width (stepWindow v w) := by
  unfold width at h ⊢
  cases v <;> simp [stepWindow, midOf] <;> omega

theorem width_stepWindow_le_half {w : SearchWindow} (v : Bool) (h : 1 < width w) :
    width (stepWindow v w) ≤ (width w + 1) / 2 := by
  unfold width at h ⊢
  cases v <;> simp [stepWindow, midOf] <;> omega

/-! ### Loop lemmas -/

/-- The loop body applied once when the guard holds, identity otherwise. -/
def loopIter (o : Nat → Nat → Bool) (s : LoopState) : LoopState :=
  if 1 < width s.win then stepState o s else s

theorem runLoopFuel_stuck (o : Nat → Nat → Bool) (n : Nat) {s : LoopState}
    (h : ¬ 1 < width s.win) : runLoopFuel o n s = s := by
  cases n with
  | zero => rfl
  | succ n =>
    show (if 1 < width s.win then runLoopFuel o n (stepState o s) else s) = s
    rw [if_neg h]

theorem runLoopFuel_succ_pos (o : Nat → Nat → Bool) {s : LoopState}
    (hg : 1 < width s.win) (n : Nat) :
    runLoopFuel o (n + 1) s = runLoopFuel o n (stepState o s) := by
  show (if 1 < width s.win then _ else s) = _
  rw [if_pos hg]

theorem runLoopFuel_succ (o : Nat → Nat → Bool) (n : Nat) (s : LoopState) :
    runLoopFuel o (n + 1) s = loopIter o (runLoopFuel o n s) := by
  induction n generalizing s with
  | zero =>
    show (if 1 < width s.win then runLoopFuel o 0 (stepState o s) else s) = loopIter o s
    rfl
  | succ n ih =>
    by_cases hg : 1 < width s.win
    · have l : runLoopFuel o (n + 2) s = runLoopFuel o (n + 1) (stepState o s) := by
        show (if 1 < width s.win then _ else s) = _
        rw [if_pos hg]
      have r : runLoopFuel o (n + 1) s = runLoopFuel o n (stepState o s) := by
        show (if 1 < width s.win then _ else s) = _
        rw [if_pos hg]
      rw [l, ih, r]
    · rw [runLoopFuel_stuck o (n + 2) hg, runLoopFuel_stuck o (n + 1) hg]
      unfold loopIter
      rw [if_neg hg]

theorem width_runLoopFuel_le_one (o : Nat → Nat → Bool) :
    ∀ (n : Nat) (s : LoopState), width s.win ≤ n →
      width (runLoopFuel o n s).win ≤ 1 := by
  intro n
  induction n with
  | zero => intro s h; simpa [runLoopFuel] using Nat.le_trans h (by omega)
  | succ n ih =>
    intro s h
    by_cases hg : 1 < width s.win
    · show width (if 1 < width s.win then runLoopFuel o n (stepState o s) else s).win ≤ 1
      rw [if_pos hg]
      apply ih
      have := width_stepWindow_lt (w := s.win) (o s.iters (midOf s.win)) hg
      simp only [stepState] at *
      omega
    · rw [runLoopFuel_stuck o (n + 1) hg]
      omega

theorem runLoopFuel_add (o : Nat → Nat → Bool) :
    ∀ (n k : Nat) (s : LoopState), width s.win ≤ n →
      runLoopFuel o (n + k) s = runLoopFuel o n s := by
  intro n
  induction n with
  | zero =>
    intro k s h
    have h0 : ¬ 1 < width s.win := by omega
    rw [Nat.zero_add]
    rw [runLoopFuel_stuck o k h0, runLoopFuel_stuck o 0 h0]
  | succ n ih =>
    intro k s h
    by_cases hg : 1 < width s.win
    · have l : runLoopFuel o (n + 1 + k) s = runLoopFuel o (n + k) (stepState o s) := by
        rw [show n + 1 + k = n + k + 1 by omega]
        exact runLoopFuel_succ_pos o hg (n + k)
      have hw : width (stepState o s).win ≤ n := by
        have := width_stepWindow_lt (w := s.win) (o s.iters (midOf s.win)) hg
        simp only [stepState] at *
        omega
      rw [l, runLoopFuel_succ_pos o hg n, ih k _ hw]
    · rw [runLoopFuel_stuck o (n + 1 + k) hg, runLoopFuel_stuck o (n + 1) hg]

theorem width_runLoopFuel_pos (o : Nat → Nat → Bool) :
    ∀ (n : Nat) (s : LoopState), 1 ≤ width s.win →
      1 ≤ width (runLoopFuel o n s).win := by
  intro n
  induction n with
  | zero => intro s h; exact h
  | succ n ih =>
    intro s h
    by_cases hg : 1 < width s.win
    · show 1 ≤ width (if 1 < width s.win then runLoopFuel o n (stepState o s) else s).win
      rw [if_pos hg]
      apply ih
      have := width_stepWindow_pos (w := s.win) (o s.iters (midOf s.win)) hg
      simpa [stepState] using this
    · rw [runLoopFuel_stuck o (n + 1) hg]
      exact h

theorem iters_runLoopFuel_le (o : Nat → Nat → Bool) :
    ∀ (n : Nat) (s : LoopState),
      (runLoopFuel o n s).iters ≤ s.iters + Nat.clog 2 (width s.win) := by
  intro n
  induction n with
  | zero => intro s; exact Nat.le_add_right _ _
  | succ n ih =>
    intro s
    by_cases hg : 1 < width s.win
    · show (if 1 < width s.win then runLoopFuel o n (stepState o s) else s).iters ≤ _
      rw [if_pos hg]
      have h1 := ih (stepState o s)
      have hiters : (stepState o s).iters = s.iters + 1 := rfl
      have hw : width (stepState o s).win ≤ (width s.win + 1) / 2 :=
        width_stepWindow_le_half (w := s.win) (o s.iters (midOf s.win)) hg
      have hm : Nat.clog 2 (width (stepState o s).win) ≤ Nat.clog 2 ((width s.win + 1) / 2) :=
        Nat.clog_mono_right 2 hw
      have hc : Nat.clog 2 (width s.win) = Nat.clog 2 ((width s.win + 1) / 2) + 1 := by
        have := Nat.clog_of_two_le (b := 2) (n := width s.win) (by omega) (by omega)
        simpa using this
      omega
    · rw [runLoopFuel_stuck o (n + 1) hg]
      exact Nat.le_add_right _ _

theorem threatFound_runLoopFuel (o : Nat → Nat → Bool) :
    ∀ (n : Nat) (s : LoopState),
      (runLoopFuel o n s).threatFound = true →
      s.threatFound = true ∨ 1 < width s.win := by
  intro n
  induction n with
  | zero => intro s h; exact Or.inl h
  | succ n _ =>
    intro s h
    by_cases hg : 1 < width s.win
    · exact Or.inr hg
    · rw [runLoopFuel_stuck o (n + 1) hg] at h
      exact Or.inl h

/-- The loop invariant `lastGood ≤ upperBound ≤ N` is preserved. -/
theorem inv_runLoopFuel (o : Nat → Nat → Bool) (N : Nat) :
    ∀ (n : Nat) (s : LoopState),
      s.win.lastGood ≤ s.win.upperBound → s.win.upperBound ≤ N →
      (runLoopFuel o n s).win.lastGood ≤ (runLoopFuel o n s).win.upperBound
      ∧ (runLoopFuel o n s).win.upperBound ≤ N := by
  intro n
  induction n with
  | zero => intro s h1 h2; exact ⟨h1, h2⟩
  | succ n ih =>
    intro s h1 h2
    by_cases hg : 1 < width s.win
    · rw [runLoopFuel_succ_pos o hg n]
      apply ih
      · show (stepWindow (o s.iters (midOf s.win)) s.win).lastGood
          ≤ (stepWindow (o s.iters (midOf s.win)) s.win).upperBound
        cases o s.iters (midOf s.win) <;> simp [stepWindow, midOf] <;> omega
      · show (stepWindow (o s.iters (midOf s.win)) s.win).upperBound ≤ N
        cases o s.iters (midOf s.win) <;> simp [stepWindow, midOf] <;> omega
    · rw [runLoopFuel_stuck o (n + 1) hg]
      exact ⟨h1, h2⟩

/-- Invariant specialised to the trace from the initial state. -/
theorem inv_trace (o : Nat → Nat → Bool) (N n : Nat) :
    (runLoopFuel o n (initState N)).win.lastGood
      ≤ (runLoopFuel o n (initState N)).win.upperBound
    ∧ (runLoopFuel o n (initState N)).win.upperBound ≤ N :=
  inv_runLoopFuel o N n (initState N) (by simp [initState]) (by simp [initState])

/-- Along the trace, `lastGood` never decreases and `upperBound` never
increases, for every oracle. -/
theorem trace_mono (o : Nat → Nat → Bool) (N n : Nat) :
    (runLoopFuel o n (initState N)).win.lastGood
      ≤ (runLoopFuel o (n + 1) (initState N)).win.lastGood
    ∧ (runLoopFuel o (n + 1) (initState N)).win.upperBound
      ≤ (runLoopFuel o n (initState N)).win.upperBound := by
  have hinv := inv_trace o N n
  rw [runLoopFuel_succ]
  set s := runLoopFuel o n (initState N) with hs
  unfold loopIter
  by_cases hg : 1 < width s.win
  · rw [if_pos hg]
    have h1 := hinv.1
    show s.win.lastGood ≤ (stepWindow (o s.iters (midOf s.win)) s.win).lastGood
      ∧ (stepWindow (o s.iters (midOf s.win)) s.win).upperBound ≤ s.win.upperBound
    cases o s.iters (midOf s.win) <;> simp [stepWindow, midOf] <;> omega
  · rw [if_neg hg]
    exact ⟨Nat.le_refl _, Nat.le_refl _⟩

/-- For the deterministic threshold oracle `malicious(k) = (k ≥ T)`,
`lastGood` stays strictly below `T` and `upperBound` stays at or above
`T` throughout the loop. -/
theorem threshold_inv (T : Nat) :
    ∀ (n : Nat) (s : LoopState), s.win.lastGood < T → T ≤ s.win.upperBound →
      (runLoopFuel (fun _ mid => decide (T ≤ mid)) n s).win.lastGood < T
      ∧ T ≤ (runLoopFuel (fun _ mid => decide (T ≤ mid)) n s).win.upperBound := by
  intro n
  induction n with
  | zero => intro s h1 h2; exact ⟨h1, h2⟩
  | succ n ih =>
    intro s h1 h2
    by_cases hg : 1 < width s.win
    · rw [runLoopFuel_succ_pos _ hg n]
      apply ih
      · show (stepWindow (decide (T ≤ midOf s.win)) s.win).lastGood < T
        by_cases hv : T ≤ midOf s.win
        · rw [decide_eq_true hv]
          exact h1
        · rw [decide_eq_false hv]
          show midOf s.win < T
          omega
      · show T ≤ (stepWindow (decide (T ≤ midOf s.win)) s.win).upperBound
        by_cases hv : T ≤ midOf s.win
        · rw [decide_eq_true hv]
          exact hv
        · rw [decide_eq_false hv]
          exact h2
    · rw [runLoopFuel_stuck _ (n + 1) hg]
      exact ⟨h1, h2⟩

/-! ### Hex-dump bound lemmas -/

theorem dumpLo_nonneg (lastGood : Nat) : 0 ≤ dumpLo lastGood := by
  simp only [dumpLo]
  split <;> omega

theorem dumpLo_toNat_le (lastGood : Nat) : (dumpLo lastGood).toNat ≤ lastGood := by
  simp only [dumpLo]
  split <;> omega

theorem dumpHi_le (mid size : Nat) : dumpHi mid size ≤ size := by
  simp only [dumpHi]
  split <;> omega

theorem le_dumpHi {k : Nat} (mid size : Nat) (h1 : k ≤ mid + 32) (h2 : k ≤ size) :
    k ≤ dumpHi mid size := by
  simp only [dumpHi]
  split <;> omega

/-! ### `GetSignature` structure lemmas -/

/-- The token the signature scan takes from one line: nothing unless the
line contains the marker, else the first field containing the marker. -/
def pickTok (line : List Char) : Option (List Char) :=
  if seqContains heurMarker line then
    (fieldsOf line).find? (fun part => seqContains heurMarker part)
  else none

theorem findSig_eq_head (ls : List (List Char)) :
    findSig ls = (ls.filterMap pickTok).head? := by
  induction ls with
  | nil => rfl
  | cons l rest ih =>
    show (if seqContains heurMarker l then _ else findSig rest) = _
    by_cases hc : seqContains heurMarker l = true
    · rw [if_pos hc]
      cases hf : (fieldsOf l).find? (fun part => seqContains heurMarker part) with
      | some p =>
        have hp : pickTok l = some p := by rw [pickTok, if_pos hc, hf]
        simp [List.filterMap_cons, hp]
      | none =>
        have hp : pickTok l = none := by rw [pickTok, if_pos hc, hf]
        simp [List.filterMap_cons, hp, ih]
    · rw [if_neg hc]
      have hp : pickTok l = none := by rw [pickTok, if_neg hc]
      simp [List.filterMap_cons, hp, ih]

theorem findSig_marker (ls : List (List Char)) :
    ∀ cs, findSig ls = some cs → seqContains heurMarker cs = true := by
  induction ls with
  | nil => intro cs h; cases h
  | cons l rest ih =>
    intro cs h
    rw [show findSig (l :: rest)
        = (if seqContains heurMarker l then
            match (fieldsOf l).find? (fun part => seqContains heurMarker part) with
            | some part => some part
            | none => findSig rest
          else findSig rest) from rfl] at h
    by_cases hc : seqContains heurMarker l = true
    · rw [if_pos hc] at h
      cases hf : (fieldsOf l).find? (fun part => seqContains heurMarker part) with
      | some p =>
        rw [hf] at h
        cases h
        exact List.find?_some hf
      | none =>
        rw [hf] at h
        exact ih cs h
    · rw [if_neg hc] at h
      exact ih cs h

theorem findSig_none (ls : List (List Char))
    (h : ∀ l ∈ ls, seqContains heurMarker l = false) : findSig ls = none := by
  induction ls with
  | nil => rfl
  | cons l rest ih =>
    show (if seqContains heurMarker l then _ else findSig rest) = none
    rw [if_neg (by simp [h l (List.mem_cons_self l rest)])]
    exact ih (fun x hx => h x (List.mem_cons_of_mem _ hx))

/-! ### Concrete run environments used as witnesses and counterexamples -/

/-- A 40-byte file whose scanner behaves as the threshold oracle with
`T = 4`: bisection converges to `lastGood = 3`, `upperBound = 4`. The
iteration-indexed outputs reproduce the verdicts of that trajectory
(iterations 3 and 4 are the clean ones). -/
def env40 : ScanEnv :=
  { buffer := (List.range 40).map (fun i => UInt8.ofNat i)
    initialOut := "suspicion HEUR:Test40"
    outs := fun i => if i = 3 ∨ i = 4 then "nothing here" else "file has suspicion" }

/-- A 2-byte malicious file whose single bisection iteration is malicious
and whose raw output carries the signature token `HEUR:EvilSig`. -/
def env2 : ScanEnv :=
  { buffer := [0x4d, 0x5a]
    initialOut := "suspicion HEUR:InitSig"
    outs := fun _ => "suspicion HEUR:EvilSig" }

/-- A 1-byte malicious file: the degenerate boundary case. -/
def env1 : ScanEnv :=
  { buffer := [0x4d]
    initialOut := "file has suspicion"
    outs := fun _ => "" }

/-! ### Claim theorems -/

/-- C1: for every file buffer of length `N > 0` and the deterministic
threshold oracle `malicious(k) = (k ≥ T)` with `0 < T ≤ N` (under which the
initial full-file scan is malicious, since `N ≥ T`), the bisection loop
converges to `lastGood = T - 1` and `upperBound = T`: the largest clean and
the smallest flagged prefix lengths. -/
theorem thresholdOracle_converges (N T : Nat) (hT : 0 < T) (hTN : T ≤ N) :
    (runLoopFuel (fun _ mid => decide (T ≤ mid)) N (initState N)).win.lastGood = T - 1
    ∧ (runLoopFuel (fun _ mid => decide (T ≤ mid)) N (initState N)).win.upperBound = T := by
  have hinv := threshold_inv T N (initState N)
    (by simpa [initState] using hT) (by simpa [initState] using hTN)
  have hw1 : width (runLoopFuel (fun _ mid => decide (T ≤ mid)) N (initState N)).win ≤ 1 :=
    width_runLoopFuel_le_one _ N _ (by simp [initState, width])
  unfold width at hw1
  omega

/-- Witness for C1 at the spec's own example `N = 1024`, `T = 700`. -/
theorem thresholdOracle_converges_witness :
    (runLoopFuel (fun _ mid => decide (700 ≤ mid)) 1024 (initState 1024)).win.lastGood = 700 - 1
    ∧ (runLoopFuel (fun _ mid => decide (700 ≤ mid)) 1024 (initState 1024)).win.upperBound = 700 :=
  thresholdOracle_converges 1024 700 (by decide) (by decide)

/-- C2: for every oracle (verdict sequence) and every point of the trace,
`upperBound ≤ len(FileBuffer)`; whenever the loop guard holds (i.e. at the
point a candidate prefix `[tf_lower:mid]` is scanned)
`0 = tf_lower ≤ lastGood < mid ≤ upperBound`; and across iterations
`lastGood` never decreases and `upperBound` never increases. -/
theorem searchWindow_invariant (o : Nat → Nat → Bool) (N n : Nat) :
    (runLoopFuel o n (initState N)).win.upperBound ≤ N
    ∧ (1 < width (runLoopFuel o n (initState N)).win →
        tf_lower = 0
        ∧ (runLoopFuel o n (initState N)).win.lastGood
            < midOf (runLoopFuel o n (initState N)).win
        ∧ midOf (runLoopFuel o n (initState N)).win
            ≤ (runLoopFuel o n (initState N)).win.upperBound)
    ∧ (runLoopFuel o n (initState N)).win.lastGood
        ≤ (runLoopFuel o (n + 1) (initState N)).win.lastGood
    ∧ (runLoopFuel o (n + 1) (initState N)).win.upperBound
        ≤ (runLoopFuel o n (initState N)).win.upperBound := by
  have hinv := inv_trace o N n
  have hmono := trace_mono o N n
  refine ⟨hinv.2, ?_, hmono.1, hmono.2⟩
  intro hg
  exact ⟨rfl, lastGood_lt_midOf hg, midOf_le_upperBound hinv.1⟩

/-- Witness for C2: the invariant instantiated at a concrete oracle, file
length and iteration, with the guard hypothesis discharged. -/
theorem searchWindow_invariant_witness :
    (runLoopFuel (fun _ _ => true) 0 (initState 8)).win.lastGood
      < midOf (runLoopFuel (fun _ _ => true) 0 (initState 8)).win :=
  ((searchWindow_invariant (fun _ _ => true) 8 0).2.1 (by decide)).2.1

/-- C3: for every oracle and every `N`, fuel `N` exhausts the loop (extra
fuel changes nothing, so the loop terminates), the final width is at most
one and is exactly one whenever at least one iteration ran, and the number
of bisection scan invocations is at most `⌈log₂ N⌉ + 1`. -/
theorem bisection_terminates (o : Nat → Nat → Bool) (N : Nat) :
    width (runLoopFuel o N (initState N)).win ≤ 1
    ∧ (∀ k : Nat, runLoopFuel o (N + k) (initState N) = runLoopFuel o N (initState N))
    ∧ (1 ≤ (runLoopFuel o N (initState N)).iters →
        width (runLoopFuel o N (initState N)).win = 1)
    ∧ (runLoopFuel o N (initState N)).iters ≤ Nat.clog 2 N + 1 := by
  have hwinit : width (initState N).win = N := by simp [initState, width]
  have h1 : width (runLoopFuel o N (initState N)).win ≤ 1 :=
    width_runLoopFuel_le_one o N (initState N) (by omega)
  refine ⟨h1, fun k => runLoopFuel_add o N k (initState N) (by omega), ?_, ?_⟩
  · intro hi
    by_cases hN : 1 < N
    · have hpos : 1 ≤ width (runLoopFuel o N (initState N)).win :=
        width_runLoopFuel_pos o N (initState N) (by omega)
      omega
    · have : runLoopFuel o N (initState N) = initState N :=
        runLoopFuel_stuck o N (by omega)
      rw [this] at hi
      exact absurd hi (by simp [initState])
  · have h4 := iters_runLoopFuel_le o N (initState N)
    rw [hwinit] at h4
    have : (initState N).iters = 0 := rfl
    omega

/-- Witness for C3: with the all-clean oracle on a 5-byte file the loop
runs 3 iterations (≥ 1), so the final width is exactly one. -/
theorem bisection_terminates_witness :
    width (runLoopFuel (fun _ _ => false) 5 (initState 5)).win = 1 :=
  (bisection_terminates (fun _ _ => false) 5).2.2.1 (by decide)

/-- C4 counterexample: in `env2` the single bisection iteration is
malicious and its raw output carries the signature token `HEUR:EvilSig`,
yet the final deduplicated report contains only the initial full-file
scan's signature — the loop never sends signatures to the Threat
Collector (kaspersky.go lines 154-159 send only a progress event). -/
theorem loop_signature_counterexample :
    IsMalicious (env2.outs 0) = true
    ∧ GetSignature (env2.outs 0) = "HEUR:EvilSig"
    ∧ KasperskyRunModel env2 = RunResult.found 0 env2.buffer ["HEUR:InitSig"]
    ∧ "HEUR:EvilSig" ∉ (["HEUR:InitSig"] : List String) := by decide

/-- C4 (amended): on a malicious bisection iteration the engine sets
`upperBound = mid` (leaving `lastGood` unchanged) but sends nothing to the
Threat Collector; the only signature ever collected is the initial
full-file scan's, so the final deduplicated report is exactly that one
signature. -/
theorem malicious_sets_upperBound_only :
    (∀ w : SearchWindow, stepWindow true w = ⟨w.lastGood, midOf w⟩)
    ∧ (∀ (env : ScanEnv) (lg : Nat) (d : List UInt8) (sg : List String),
        KasperskyRunModel env = RunResult.found lg d sg →
        sg = [GetSignature env.initialOut]) := by
  constructor
  · intro w
    rfl
  · intro env lg d sg h
    simp only [KasperskyRunModel] at h
    split at h
    · split at h
      · simp only [RunResult.found.injEq] at h
        rw [← h.2.2]
        rfl
      · exact RunResult.noConfusion h
    · exact RunResult.noConfusion h

/-- Witness for C4's amended theorem at the concrete run `env2`. -/
theorem malicious_sets_upperBound_only_witness :
    (["HEUR:InitSig"] : List String) = [GetSignature env2.initialOut] :=
  malicious_sets_upperBound_only.2 env2 0 env2.buffer ["HEUR:InitSig"] (by decide)

/-- C5 counterexample: in `env40` the loop converges to `lastGood = 3`,
`upperBound = 4`, and the dumped window is `FileBuffer[0:35]` — the code
clamps `mid + 32 = 35`, not `upperBound + 32 = 36` as the claim states
(`max(0, 3-32) = 0`, `min(40, 36) = 36`), and the two slices differ. -/
theorem dump_window_counterexample :
    KasperskyRunModel env40 = RunResult.found 3 (env40.buffer.take 35) ["HEUR:Test40"]
    ∧ (runLoopFuel (oracleOf env40.outs) 40 (initState 40)).win = ⟨3, 4⟩
    ∧ env40.buffer.take 35 ≠ env40.buffer.take 36 := by decide

/-- C5 (amended): whenever a result is produced (at least one iteration
was malicious), `localizedOffset` is the final `lastGood` and the dumped
window is exactly `FileBuffer[max(0,lastGood-32) : min(len,lastGood+32)]`:
the upper clamp uses the final `mid`, which equals `lastGood` at
convergence, not `upperBound`. -/
theorem dump_window_uses_final_mid (env : ScanEnv) (lg : Nat) (d : List UInt8)
    (sg : List String) (h : KasperskyRunModel env = RunResult.found lg d sg) :
    lg = (runLoopFuel (oracleOf env.outs) env.buffer.length
            (initState env.buffer.length)).win.lastGood
    ∧ d = (env.buffer.drop (dumpLo lg).toNat).take
            (dumpHi lg env.buffer.length - (dumpLo lg).toNat) := by
  simp only [KasperskyRunModel] at h
  split at h
  · split at h
    · next h2 =>
      simp only [RunResult.found.injEq] at h
      obtain ⟨e1, e2, _⟩ := h
      subst e1
      have hN2 : 1 < env.buffer.length := by
        rcases threatFound_runLoopFuel _ env.buffer.length (initState env.buffer.length) h2
          with hc | hw
        · exact absurd hc (by simp [initState])
        · simpa [initState, width] using hw
      have hle : width (runLoopFuel (oracleOf env.outs) env.buffer.length
          (initState env.buffer.length)).win ≤ 1 :=
        width_runLoopFuel_le_one _ env.buffer.length _ (by simp [initState, width])
      have hpos : 1 ≤ width (runLoopFuel (oracleOf env.outs) env.buffer.length
          (initState env.buffer.length)).win :=
        width_runLoopFuel_pos _ env.buffer.length _ (by simp [initState, width]; omega)
      have hmid : midOf (runLoopFuel (oracleOf env.outs) env.buffer.length
            (initState env.buffer.length)).win
          = (runLoopFuel (oracleOf env.outs) env.buffer.length
            (initState env.buffer.length)).win.lastGood := by
        unfold width at hle hpos
        unfold midOf
        omega
      rw [hmid] at e2
      exact ⟨rfl, e2.symm⟩
    · exact RunResult.noConfusion h
  · exact RunResult.noConfusion h

/-- Witness for C5's amended theorem at the concrete run `env40`. -/
theorem dump_window_uses_final_mid_witness :
    3 = (runLoopFuel (oracleOf env40.outs) env40.buffer.length
          (initState env40.buffer.length)).win.lastGood
    ∧ env40.buffer.take 35 = (env40.buffer.drop (dumpLo 3).toNat).take
        (dumpHi 3 env40.buffer.length - (dumpLo 3).toNat) :=
  dump_window_uses_final_mid env40 3 (env40.buffer.take 35) ["HEUR:Test40"] (by decide)

/-- C6: for every target path, scanner path and subprocess behaviour
(including failure to start or a non-zero exit, recorded in `runError`),
`Scan` returns the captured standard output with a `nil` error; and an
empty output — or any output no line of which contains the suspicion
marker — is classified clean. -/
theorem scan_ignores_exit_status (file scanPath : String) (proc : ProcResult) :
    Scan file scanPath proc = (proc.stdout, none)
    ∧ IsMalicious "" = false
    ∧ (∀ out : String,
        (∀ line ∈ splitLines out.data, seqContains suspicionMarker line = false) →
        IsMalicious out = false) := by
  refine ⟨rfl, by decide, ?_⟩
  intro out h
  unfold IsMalicious
  simp only [List.any_eq_false]
  intro line hline
  simp [h line hline]

/-- Witness for C6: a subprocess that failed with a non-zero exit still
yields its partial output and no error, and garbled output is clean. -/
theorem scan_ignores_exit_status_witness :
    Scan "testfile.exe" "avp.com" ⟨"partial output", "some stderr", some "exit status 1"⟩
      = ("partial output", none)
    ∧ IsMalicious "garbled ### output" = false :=
  ⟨(scan_ignores_exit_status "testfile.exe" "avp.com"
      ⟨"partial output", "some stderr", some "exit status 1"⟩).1,
   (scan_ignores_exit_status "testfile.exe" "avp.com"
      ⟨"partial output", "some stderr", some "exit status 1"⟩).2.2
      "garbled ### output" (by decide)⟩

/-- C7 counterexample: on input with no marker the extractor returns the
sentinel `"No signature found"` (capital N), which is not the string
`"no signature found"` stated by the claim. -/
theorem sentinel_case_counterexample :
    GetSignature "" = "No signature found"
    ∧ ("No signature found" : String) ≠ "no signature found" := by decide

/-- C7 (amended): `GetSignature` returns the first whitespace-delimited
token containing the `HEUR:` marker, taken from the first marker-containing
line that has one; the returned token always contains the marker; and when
no line contains the marker it returns the sentinel `"No signature found"`
(capital N). -/
theorem getSignature_characterization (output : String) :
    GetSignature output =
      ((((splitLines output.data).filterMap pickTok).head?.map
        (fun cs => String.mk cs)).getD "No signature found")
    ∧ (∀ cs, findSig (splitLines output.data) = some cs →
        seqContains heurMarker cs = true)
    ∧ ((∀ line ∈ splitLines output.data, seqContains heurMarker line = false) →
        GetSignature output = "No signature found") := by
  refine ⟨?_, findSig_marker _, ?_⟩
  · unfold GetSignature
    rw [findSig_eq_head]
    cases ((splitLines output.data).filterMap pickTok).head? <;> simp
  · intro h
    unfold GetSignature
    rw [findSig_none _ h]

/-- Witness for C7's amended theorem: the sentinel conjunct discharged at
a concrete marker-free report. -/
theorem getSignature_characterization_witness :
    GetSignature "no markers at all" = "No signature found" :=
  (getSignature_characterization "no markers at all").2.2 (by decide)

/-- C8: for a 1-byte file whose full-file scan is malicious, the loop body
never executes (`upperBound - lastGood` starts at 1, so zero scan
iterations happen) and the run reports "not malicious" despite the
malicious precondition. -/
theorem degenerate_single_byte (env : ScanEnv) (h1 : env.buffer.length = 1)
    (h2 : IsMalicious env.initialOut = true) :
    KasperskyRunModel env = RunResult.notMalicious
    ∧ (runLoopFuel (oracleOf env.outs) env.buffer.length
        (initState env.buffer.length)).iters = 0 := by
  have hloop : runLoopFuel (oracleOf env.outs) env.buffer.length
      (initState env.buffer.length) = initState env.buffer.length := by
    rw [h1]
    exact runLoopFuel_stuck _ 1 (by simp [initState, width])
  constructor
  · simp only [KasperskyRunModel]
    rw [if_pos h2, hloop]
    rw [if_neg (by simp [initState])]
  · rw [hloop]
    rfl

/-- Witness for C8 at the concrete 1-byte run `env1`. -/
theorem degenerate_single_byte_witness :
    KasperskyRunModel env1 = RunResult.notMalicious
    ∧ (runLoopFuel (oracleOf env1.outs) env1.buffer.length
        (initState env1.buffer.length)).iters = 0 :=
  degenerate_single_byte env1 (by decide) (by decide)

/-- C9 (code bug): once its channel is closed the progress reporter
returns on its very next receive (for any number of prior turns), but the
threat collector — whose receive has no closed-channel check — keeps
looping forever, appending the zero value `""` on every turn: after `n`
turns on the closed channel its list is `n` empty strings, for every `n`,
so it never terminates. -/
theorem collector_nontermination :
    (∀ k : Nat, reporterRuns (fun _ => Recv.closed) (k + 1) = false)
    ∧ (∀ n : Nat, collectorRuns (fun _ => Recv.closed) n = List.replicate n "") := by
  constructor
  · intro k
    show (reporterRuns (fun _ => Recv.closed) k && reporterIter Recv.closed) = false
    rw [show reporterIter Recv.closed = false from rfl, Bool.and_false]
  · intro n
    induction n with
    | zero => rfl
    | succ n ih =>
      show collectorIter (collectorRuns (fun _ => Recv.closed) n) Recv.closed = _
      rw [ih]
      simp [collectorIter, List.replicate_succ']

/-- C10: every slice of the original buffer is in bounds: at every point of
the trace the scanned prefix satisfies `0 = tf_lower ≤ mid ≤ len`, and the
clamped hex-dump bounds computed from the state satisfy
`0 ≤ start ≤ end ≤ len`, for every file length and verdict sequence. -/
theorem slice_bounds_safe (o : Nat → Nat → Bool) (N n : Nat) :
    tf_lower ≤ midOf (runLoopFuel o n (initState N)).win
    ∧ midOf (runLoopFuel o n (initState N)).win ≤ N
    ∧ 0 ≤ dumpLo (runLoopFuel o n (initState N)).win.lastGood
    ∧ (dumpLo (runLoopFuel o n (initState N)).win.lastGood).toNat
        ≤ dumpHi (midOf (runLoopFuel o n (initState N)).win) N
    ∧ dumpHi (midOf (runLoopFuel o n (initState N)).win) N ≤ N := by
  have hinv := inv_trace o N n
  refine ⟨Nat.zero_le _, ?_, dumpLo_nonneg _, ?_, dumpHi_le _ _⟩
  · exact Nat.le_trans (midOf_le_upperBound hinv.1) hinv.2
  · apply le_dumpHi
    · exact Nat.le_trans (dumpLo_toNat_le _)
        (Nat.le_trans (lastGood_le_midOf hinv.1) (Nat.le_add_right _ _))
    · exact Nat.le_trans (dumpLo_toNat_le _)
        (Nat.le_trans hinv.1 hinv.2)

end GoCheck
